import Mathlib

/-!
Verification development for a tool server that resolves deployment
configuration through an external CLI and scans the resolved document for
database-reference markers.

The Python sources are shallowly embedded:

* `utils/analysis.py`   → `search_database_references` and its recursion.
* `utils/serverless.py` → `extract_yaml_from_output`, `persist_resolved_config`.
* `utils/validation.py` → `validate_dependencies`.
* `main.py`             → `check_project_dependencies`, `get_serverless_config`,
  `find_database_credentials`.

Modelling conventions:

* Python strings are Lean `String`; `str.lower()` is modelled per character
  with `Char.toLower` (`pyLower`), and `in` (substring test) with `charsHas`
  over character lists.
* Filesystem paths are modelled as lists of `os.path.join` components
  (`FPath := List String`); the filesystem is a pair of total functions for
  directories and file contents, and `os.path.exists` checks both.
* `yaml.safe_load` and the `serverless print` subprocess are oracles carried
  by an `Env` record; `Except` models the raising of an exception
  (`.error msg` with `msg` the text of `str(e)`).
* A Python value parsed from YAML is the inductive `Yaml`; Python `None`
  is `Yaml.ynull` (so a result field initialised to `None` and a document
  that parses to YAML `null` coincide, exactly as in Python).
-/

/-! ## Character and string helpers (models of Python string primitives) -/

/-- Model of `needle` being a leading segment of `hay` (char lists). -/
def charsLeads : List Char → List Char → Bool
  | [], _ => true
  | _ :: _, [] => false
  | a :: as, b :: bs => a == b && charsLeads as bs

/-- Model of the Python substring test `needle in hay` (char lists). -/
def charsHas (needle : List Char) : List Char → Bool
  | [] => charsLeads needle []
  | c :: rest => charsLeads needle (c :: rest) || charsHas needle rest

/-- Number of positions of `hay` at which `needle` occurs as a leading
segment of the corresponding suffix. -/
def subCount (needle : List Char) : List Char → Nat
  | [] => if charsLeads needle [] then 1 else 0
  | c :: rest => (if charsLeads needle (c :: rest) then 1 else 0) + subCount needle rest

/-- Model of Python `str.lower()` (per-character lowercasing). -/
def pyLower (s : String) : String := ⟨s.data.map Char.toLower⟩

/-- Characters stripped by Python `str.strip()`. -/
def isPySpace (c : Char) : Bool :=
  c = ' ' || c = '\t' || c = '\n' || c = '\r' || c = '\x0b' || c = '\x0c'

/-- Model of Python `str.strip()` on char lists. -/
def stripChars (cs : List Char) : List Char :=
  ((cs.dropWhile isPySpace).reverse.dropWhile isPySpace).reverse

/-- Model of Python `str.strip()`. -/
def pyStrip (s : String) : String := ⟨stripChars s.data⟩

/-- Model of the Python slice `s[:n]`. -/
def strTake (s : String) (n : Nat) : String := ⟨s.data.take n⟩

/-- Model of `utils/analysis.py`: `prefix.lower() in k.lower()`, the
case-insensitive substring test applied to keys and string values. -/
def matchesCI (m s : String) : Bool :=
  charsHas (m.data.map Char.toLower) (s.data.map Char.toLower)

/-! ## The document tree (parsed YAML, `ResolvedConfigDocument`) -/

/-- A parsed document: maps, sequences and scalars.  `ynull` doubles as
Python `None`.  Numbers are modelled by `yint` (the code never computes
with them; they only pass through). -/
inductive Yaml where
  | ystr (s : String)
  | yint (n : Int)
  | ybool (b : Bool)
  | ynull
  | ymap (entries : List (String × Yaml))
  | ylist (items : List Yaml)

/-- The `value` field of a finding: either the associated Python value
(`v if isinstance(v, (str, int, float, bool))`) or the opaque type tag
string the code builds otherwise. -/
inductive RecVal where
  | prim (v : Yaml)
  | tag (t : String)

/-- The value the scanner records for a key match, modelling
`v if isinstance(v, (str, int, float, bool)) else f"<{type(v).__name__}>"`.
Note that Python `None` fails the `isinstance` test, so it is recorded as
the tag `"<NoneType>"`. -/
def recordValue : Yaml → RecVal
  | .ystr s => .prim (.ystr s)
  | .yint n => .prim (.yint n)
  | .ybool b => .prim (.ybool b)
  | .ynull => .tag "<NoneType>"
  | .ymap _ => .tag "<dict>"
  | .ylist _ => .tag "<list>"

/-- One finding dictionary of `search_database_references`.  `key` is
`none` for value matches (the Python dict has no `"key"` entry there). -/
structure Finding where
  type : String
  marker : String
  path : String
  key : Option String
  value : RecVal

/-- Path extension for a map key: `f"{current_path}.{k}" if current_path else k`. -/
def joinPath (cur k : String) : String := if cur = "" then k else cur ++ "." ++ k

/-- Path extension for a sequence index: `f"{current_path}[{i}]"`. -/
def idxPath (cur : String) (i : Nat) : String := cur ++ "[" ++ toString i ++ "]"

/-- The key-match finding dict appended for marker `m` at key `k`. -/
def keyFindingOf (m cur k : String) (v : Yaml) : Finding :=
  { type := "key_match", marker := m, path := joinPath cur k,
    key := some k, value := recordValue v }

/-- The value-match finding dict appended for marker `m` on string `s`. -/
def valueFindingOf (m cur s : String) : Finding :=
  { type := "value_match", marker := m, path := cur,
    key := none, value := .prim (.ystr s) }

/-- The key-match findings one map entry produces: one per matching marker,
in marker order (the `for prefix in prefixes` loop). -/
def keyFindings (markers : List String) (cur k : String) (v : Yaml) : List Finding :=
  (markers.filter (fun m => matchesCI m k)).map (fun m => keyFindingOf m cur k v)

/-- The value-match findings one string scalar produces. -/
def valFindings (markers : List String) (cur s : String) : List Finding :=
  (markers.filter (fun m => matchesCI m s)).map (fun m => valueFindingOf m cur s)

mutual

/-- The recursion `_recurse` of `search_database_references`, returning the
findings appended while visiting `y` with path accumulator `cur`. -/
def recurseY (markers : List String) : Yaml → String → List Finding
  | .ymap entries, cur => recurseMap markers entries cur
  | .ylist items, cur => recurseList markers items cur 0
  | .ystr s, cur => valFindings markers cur s
  | .yint _, _ => []
  | .ybool _, _ => []
  | .ynull, _ => []

/-- The `for k, v in obj.items()` loop of `_recurse`. -/
def recurseMap (markers : List String) : List (String × Yaml) → String → List Finding
  | [], _ => []
  | (k, v) :: rest, cur =>
      keyFindings markers cur k v ++ recurseY markers v (joinPath cur k) ++
        recurseMap markers rest cur

/-- The `for i, item in enumerate(obj)` loop of `_recurse`; `i` is the index
of the first element of the remaining list. -/
def recurseList (markers : List String) : List Yaml → String → Nat → List Finding
  | [], _, _ => []
  | item :: rest, cur, i =>
      recurseY markers item (idxPath cur i) ++ recurseList markers rest cur (i + 1)

end

/-- Model of `search_database_references` from `utils/analysis.py`. -/
def search_database_references (config : Yaml)
    (markers : List String := ["AX", "AE", "SAS", "RSA"]) : List Finding :=
  recurseY markers config ""

/-! ## Abstract access paths into a document -/

/-- One step of an access path: a map key or a sequence index. -/
inductive Step where
  | field (k : String)
  | idx (i : Nat)
deriving DecidableEq

/-- Rendering one step onto a path accumulator, exactly as `_recurse`
builds its `current_path` strings. -/
def stepStr (cur : String) : Step → String
  | .field k => joinPath cur k
  | .idx i => idxPath cur i

/-- Rendering a list of steps onto a path accumulator. -/
def renderSteps (cur : String) : List Step → String
  | [] => cur
  | s :: rest => renderSteps (stepStr cur s) rest

/-- `ResolvesTo y p t`: following the access path `p` from `y` reaches the
subterm `t`.  Map steps relate through entry membership, so every occurrence
of a duplicated key is reachable. -/
inductive ResolvesTo : Yaml → List Step → Yaml → Prop
  | nil (y : Yaml) : ResolvesTo y [] y
  | field {entries : List (String × Yaml)} {k : String} {v t : Yaml} {p : List Step}
      (hmem : (k, v) ∈ entries) (h : ResolvesTo v p t) :
      ResolvesTo (.ymap entries) (.field k :: p) t
  | idx {items : List Yaml} {i : Nat} {t : Yaml} {p : List Step}
      (hlt : i < items.length) (h : ResolvesTo (items.get ⟨i, hlt⟩) p t) :
      ResolvesTo (.ylist items) (.idx i :: p) t

/-! ## Config Extractor (`utils/serverless.py`, `extract_yaml_from_output`) -/

/-- Helper for `splitlinesChars`: consume characters into the current line
accumulator (kept reversed); a final newline does not open an empty line,
matching Python `str.splitlines()`. -/
def splitlinesGo (acc : List Char) : List Char → List (List Char)
  | [] => [acc.reverse]
  | c :: rest =>
    if c = '\n' then
      match rest with
      | [] => [acc.reverse]
      | _ => acc.reverse :: splitlinesGo [] rest
    else splitlinesGo (c :: acc) rest

/-- Model of Python `str.splitlines()` restricted to `'\n'` boundaries
(the only boundary occurring in this system's data). -/
def splitlinesChars : List Char → List (List Char)
  | [] => []
  | c :: rest => splitlinesGo [] (c :: rest)

/-- Model of `"\n".join(...)` on char-list lines. -/
def joinLinesChars : List (List Char) → List Char
  | [] => []
  | [l] => l
  | l :: rest => l ++ '\n' :: joinLinesChars rest

/-- Model of `"\n".join(...)` on strings. -/
def joinLines (ls : List String) : String := ⟨joinLinesChars (ls.map String.data)⟩

/-- Detection of the document start:
`stripped.startswith("service:") or stripped.startswith("frameworkVersion:")`. -/
def isStartLine (line : List Char) : Bool :=
  charsLeads ("service:".data) (stripChars line) ||
    charsLeads ("frameworkVersion:".data) (stripChars line)

/-- Detection of the trailing banner:
`line.strip().startswith("Serverless:") or "Deprecation warning:" in line`. -/
def isStopLine (line : List Char) : Bool :=
  charsLeads ("Serverless:".data) (stripChars line) ||
    charsHas ("Deprecation warning:".data) line

/-- The line loop of `extract_yaml_from_output`; the `Bool` is the
`yaml_started` flag. -/
def collectLines : Bool → List (List Char) → List (List Char)
  | _, [] => []
  | false, l :: rest =>
      if isStartLine l then l :: collectLines true rest else collectLines false rest
  | true, l :: rest =>
      if isStopLine l then [] else l :: collectLines true rest

/-- Model of `extract_yaml_from_output` from `utils/serverless.py`. -/
def extract_yaml_from_output (stdout_content : String) : String :=
  let lines := splitlinesChars stdout_content.data
  let clean_yaml_lines := collectLines false lines
  if clean_yaml_lines.isEmpty then stdout_content else ⟨joinLinesChars clean_yaml_lines⟩

/-! ## Filesystem and environment model -/

/-- A filesystem path, as the list of `os.path.join` components. -/
abbrev FPath := List String

/-- Rendering of a path for messages that interpolate it. -/
def pathStr (p : FPath) : String := String.intercalate "/" p

/-- The filesystem: a set of directories and a partial map of file contents.
`os.path.exists` is true for either kind of node. -/
structure FS where
  dirs : FPath → Bool
  files : FPath → Option String

/-- Model of `os.path.exists`. -/
def FS.existsPath (fs : FS) (p : FPath) : Bool := fs.dirs p || (fs.files p).isSome

/-- Model of `open(p, "w").write(c)` (create or overwrite). -/
def FS.write (fs : FS) (p : FPath) (c : String) : FS :=
  { fs with files := fun q => if q = p then some c else fs.files q }

/-- Model of `os.makedirs(p, exist_ok=True)` (parents of `p` are project
directories that already exist in every scenario considered). -/
def FS.mkdirs (fs : FS) (p : FPath) : FS :=
  { fs with dirs := fun q => if q = p then true else fs.dirs q }

/-- Captured result of the `serverless print` subprocess. -/
structure ProcOut where
  returncode : Int
  stdout : String
  stderr : String

/-- The external oracles: `yaml.safe_load` and `execute_serverless_print`
(as a function of project path and stage).  `.error msg` models a raised
exception whose `str(e)` is `msg`. -/
structure Env where
  parse : String → Except String Yaml
  run : String → String → Except String ProcOut

/-! ## Config Persister (`utils/serverless.py`, `persist_resolved_config`) -/

/-- `os.path.join(project_path, ".rimac_migration")`. -/
def migrationDir (project_path : String) : FPath := [project_path, ".rimac_migration"]

/-- `f"serverless.resolved.{stage.lower()}.yaml"`. -/
def resolvedName (stage : String) : String :=
  "serverless.resolved." ++ pyLower stage ++ ".yaml"

/-- The deterministic cache path for `(project, stage)`. -/
def resolvedPath (project_path stage : String) : FPath :=
  migrationDir project_path ++ [resolvedName stage]

/-- `os.path.join(project_path, ".gitignore")`. -/
def gitignorePath (project_path : String) : FPath := [project_path, ".gitignore"]

/-- The ignore pattern written to `.gitignore`. -/
def gitignoreEntry : String := ".rimac_migration/"

/-- Model of `persist_resolved_config`.  Returns the new filesystem and
`some` resolved-file path, or `none` when the `.gitignore` read raises
(the path exists but holds no file content); in that case the writes made
before the raise are kept, as in Python. -/
def persist_resolved_config (fs : FS) (project_path stage yaml_content : String) :
    FS × Option FPath :=
  let fs1 := fs.mkdirs (migrationDir project_path)
  let rfp := resolvedPath project_path stage
  let fs2 := fs1.write rfp yaml_content
  let gp := gitignorePath project_path
  if fs2.existsPath gp then
    match fs2.files gp with
    | some gitignore_content =>
        if charsHas gitignoreEntry.data gitignore_content.data then (fs2, some rfp)
        else
          (fs2.write gp
            (gitignore_content ++ "\n# Rimac Migration MCP\n" ++ gitignoreEntry ++ "\n"),
           some rfp)
    | none => (fs2, none)
  else (fs2.write gp ("# Rimac Migration MCP\n" ++ gitignoreEntry ++ "\n"), some rfp)

/-! ## Config Resolver (`main.py`, `get_serverless_config`) -/

/-- The `results` dictionary of `get_serverless_config`; `serverless_config`
is `Yaml.ynull` both initially (Python `None`) and for a document that is
YAML `null`, exactly as in Python.  `resolved_config_path` is `none` while
the key is absent from the dict. -/
structure Results where
  project_path : String
  stage : String
  serverless_config : Yaml
  errors : List String
  method : String
  resolved_config_path : Option FPath

/-- The `results` dict as first initialised. -/
def mkBase (project_path target_stage : String) : Results :=
  { project_path := project_path, stage := target_stage, serverless_config := .ynull,
    errors := [], method := "unknown", resolved_config_path := none }

/-- The possible return shapes of `get_serverless_config`: the bare
`{"error": ...}` dict for a missing project path, the bare
`{"error", "message"}` dict for missing `node_modules`, or the full
`results` dict. -/
inductive ConfigOutcome where
  | pathError (error : String)
  | missingDeps (error message : String)
  | ok (r : Results)

/-- The credentials/environment hint appended next to subprocess errors. -/
def awsHint : String :=
  "Hint: Ensure you have valid AWS credentials configured or the necessary environment variables set to resolve configuration values."

/-- The fresh-resolution path of `get_serverless_config` (everything after
the cached-file fast path).  The third component of the result records
whether `execute_serverless_print` was invoked. -/
def freshResolve (env : Env) (fs : FS) (project_path target_stage : String) :
    ConfigOutcome × FS × Bool :=
  if fs.existsPath [project_path, "node_modules"] = false then
    (.missingDeps "MissingDependencies"
      "node_modules not found. Please run check_project_dependencies first or install dependencies manually.",
     fs, false)
  else
    match env.run project_path target_stage with
    | .error e =>
        (.ok { mkBase project_path target_stage with
                errors := ["Exception running serverless print: " ++ e, awsHint] },
         fs, true)
    | .ok process =>
        let yaml_content := extract_yaml_from_output process.stdout
        if process.returncode = 0 then
          match persist_resolved_config fs project_path target_stage yaml_content with
          | (fs2, none) =>
              (.ok { mkBase project_path target_stage with
                      errors := ["Error processing serverless print output: IsADirectoryError"] },
               fs2, true)
          | (fs2, some rcp) =>
              match env.parse yaml_content with
              | .ok doc =>
                  (.ok { mkBase project_path target_stage with
                          resolved_config_path := some rcp,
                          serverless_config := doc,
                          method := "serverless_print" },
                   fs2, true)
              | .error m =>
                  (.ok { mkBase project_path target_stage with
                          resolved_config_path := some rcp,
                          errors := ["Error processing serverless print output: " ++ m] },
                   fs2, true)
        else
          let clean_stderr := if process.stderr = "" then "Unknown error" else pyStrip process.stderr
          (.ok { mkBase project_path target_stage with
                  errors := ["serverless print failed: " ++ strTake clean_stderr 500 ++ "...",
                             awsHint] },
           fs, true)

/-- Model of the tool `get_serverless_config` from `main.py`.
`default_stage` stands for `os.environ.get("MCP_STAGE", "TEST")`.  The
third component of the result records whether the subprocess was invoked. -/
def get_serverless_config (env : Env) (fs : FS) (project_path : String)
    (stage : Option String) (default_stage : String) : ConfigOutcome × FS × Bool :=
  let target_stage := stage.getD default_stage
  if fs.existsPath [project_path] = false then
    (.pathError ("Path does not exist: " ++ project_path), fs, false)
  else
    let rfp := resolvedPath project_path target_stage
    if fs.existsPath rfp then
      match fs.files rfp with
      | some content =>
          match env.parse content with
          | .ok doc =>
              (.ok { mkBase project_path target_stage with
                      serverless_config := doc,
                      method := "existing_resolved_file",
                      resolved_config_path := some rfp },
               fs, false)
          | .error _ => freshResolve env fs project_path target_stage
      | none => freshResolve env fs project_path target_stage
    else freshResolve env fs project_path target_stage

/-! ## Dependency Gate (`utils/validation.py` and `main.py`) -/

/-- The outcome of one elicitation round-trip: the decision `action` and
the collaborator's `is_npmrc_correct` answer. -/
structure Elic where
  action : String
  npmrcCorrect : Bool

/-- The possible return dicts of `check_project_dependencies`. -/
inductive DepOutcome where
  | pathError (error : String)
  | success
  | installationAuthorized (message command : String)
  | abortedByUser (message : String)
  | missingDeps (error message suggested_command action_required : String)

/-- Model of `validate_dependencies` from `utils/validation.py`; `ctx` is
`none` when no interactive channel is available. -/
def validate_dependencies (fs : FS) (project_path : String) (ctx : Option Elic) :
    DepOutcome :=
  if fs.existsPath [project_path, "node_modules"] then .success
  else
    match ctx with
    | some result =>
        if result.action = "accept" && result.npmrcCorrect then
          .installationAuthorized
            "User has CONFIRMED .npmrc configuration. REQUIRED ACTION: Open a terminal and run \x27npm i --dd\x27 immediately. Do not ask for confirmation."
            "npm i --dd"
        else .abortedByUser "User declined dependency installation or .npmrc is incorrect."
    | none =>
        .missingDeps "MissingDependencies"
          ("Missing node_modules in " ++ project_path ++ ". Please install dependencies first.")
          "npm i --dd" "install_dependencies"

/-- Model of the tool `check_project_dependencies` from `main.py`. -/
def check_project_dependencies (fs : FS) (project_path : String) (ctx : Option Elic) :
    DepOutcome :=
  if fs.existsPath [project_path] = false then
    .pathError ("Path does not exist: " ++ project_path)
  else validate_dependencies fs project_path ctx

/-! ## Reference Scanner tool (`main.py`, `find_database_credentials`) -/

/-- The possible return dicts of `find_database_credentials`. -/
inductive CredOutcome where
  | errorResult (error : String) (message : Option String)
  | ok (project_path stage : String) (analyzed_file : FPath)
       (findings_count : Nat) (findings : List Finding)

/-- Model of the tool `find_database_credentials` from `main.py`. -/
def find_database_credentials (env : Env) (fs : FS) (project_path : String)
    (stage : Option String) (default_stage : String) : CredOutcome :=
  let target_stage := stage.getD default_stage
  let rfp := resolvedPath project_path target_stage
  if fs.existsPath rfp = false then
    .errorResult "ResolvedConfigNotFound"
      (some ("Could not find resolved config at " ++ pathStr rfp ++
             ". Please run get_serverless_config first."))
  else
    match fs.files rfp with
    | none => .errorResult "Error analyzing config: IsADirectoryError" none
    | some content =>
        match env.parse content with
        | .error m => .errorResult ("Error analyzing config: " ++ m) none
        | .ok config =>
            .ok project_path target_stage rfp
              (search_database_references config).length
              (search_database_references config)

/-! ## Derived quantities used by the claims -/

/-- Occurrences of the ignore pattern in an optional `.gitignore` content. -/
def gitCount (c : Option String) : Nat :=
  match c with
  | none => 0
  | some content => subCount gitignoreEntry.data content.data

/-- One Config Persister call viewed as a filesystem transformer, for
iterating calls with varying stage and content. -/
def persistFS (project_path : String) (fs : FS) (call : String × String) : FS :=
  (persist_resolved_config fs project_path call.1 call.2).1


/-! ## Concrete fixtures used by witnesses -/

/-- An empty filesystem. -/
def fsEmpty : FS := { dirs := fun _ => false, files := fun _ => none }

/-- An environment whose oracles are never consulted successfully. -/
def envTrivial : Env := { parse := fun _ => .error "unused", run := fun _ _ => .error "unused" }

/-- A filesystem with only the project directory. -/
def fsProj : FS := { dirs := fun p => decide (p = ["proj"]), files := fun _ => none }

/-- A filesystem with the project directory and `node_modules`. -/
def fsProjDeps : FS :=
  { dirs := fun p => decide (p = ["proj"]) || decide (p = ["proj", "node_modules"]),
    files := fun _ => none }

/-- A filesystem holding a parsable cached resolved config. -/
def fsCached : FS :=
  { dirs := fun p => decide (p = ["proj"]),
    files := fun p => if p = resolvedPath "proj" "TEST" then some "service: x" else none }

/-- A parse oracle accepting exactly `service: x`. -/
def envCached : Env :=
  { parse := fun s =>
      if s = "service: x" then .ok (.ymap [("service", .ystr "x")]) else .error "bad",
    run := fun _ _ => .error "unused" }

/-- A filesystem holding an unparsable cached resolved config, with
`node_modules` present so the fresh path is observable. -/
def fsBadCached : FS :=
  { dirs := fun p => decide (p = ["proj"]) || decide (p = ["proj", "node_modules"]),
    files := fun p => if p = resolvedPath "proj" "TEST" then some "garbage" else none }

/-- A filesystem holding a cached resolved config that parses to null. -/
def fsNullCached : FS :=
  { dirs := fun p => decide (p = ["proj"]),
    files := fun p => if p = resolvedPath "proj" "TEST" then some "" else none }

/-- A parse oracle mapping the empty document to YAML null. -/
def envNull : Env :=
  { parse := fun s => if s = "" then .ok .ynull else .error "bad",
    run := fun _ _ => .error "unused" }

/-- An environment whose subprocess succeeds with a clean document. -/
def envRun : Env :=
  { parse := fun s =>
      if s = "service: x" then .ok (.ymap [("service", .ystr "x")]) else .error "bad",
    run := fun _ _ => .ok { returncode := 0, stdout := "service: x", stderr := "" } }

/-- A filesystem whose `.gitignore` already contains the ignore pattern. -/
def fsGit : FS :=
  { dirs := fun p => decide (p = ["proj"]),
    files := fun p =>
      if p = gitignorePath "proj" then some "node_modules/\n.rimac_migration/\n" else none }

/-! ## Substring lemmas -/

theorem charsLeads_append_self (n r : List Char) : charsLeads n (n ++ r) = true := by
  induction n with
  | nil => rfl
  | cons c cs ih => simp [charsLeads, ih]

theorem charsHas_cons (n : List Char) (c : Char) (rest : List Char) :
    charsHas n (c :: rest) = (charsLeads n (c :: rest) || charsHas n rest) := rfl

theorem charsHas_append_self (u n w : List Char) : charsHas n (u ++ n ++ w) = true := by
  induction u with
  | nil =>
      cases n with
      | nil => cases w <;> simp [charsHas, charsLeads]
      | cons c cs =>
          have h := charsLeads_append_self (c :: cs) w
          simp only [List.nil_append, List.cons_append] at h ⊢
          rw [charsHas_cons, h]
          simp
  | cons c u ih =>
      have heq : c :: u ++ n ++ w = c :: (u ++ n ++ w) := by simp
      rw [heq, charsHas_cons, ih]
      simp

theorem matchesCI_of_variant (m s : String)
    (h : ∃ u t w, s.data = u ++ t ++ w ∧ t.map Char.toLower = m.data.map Char.toLower) :
    matchesCI m s = true := by
  obtain ⟨u, t, w, hs, ht⟩ := h
  unfold matchesCI
  rw [hs]
  simp only [List.map_append]
  rw [← ht]
  exact charsHas_append_self _ _ _

/-! ## Induction principle for documents -/

/-- Nested induction over `Yaml`, giving the inductive hypothesis at every
map entry and sequence element. -/
theorem Yaml.recAux (P : Yaml → Prop)
    (hstr : ∀ s, P (.ystr s)) (hint : ∀ n, P (.yint n))
    (hbool : ∀ b, P (.ybool b)) (hnull : P .ynull)
    (hmap : ∀ entries, (∀ k v, (k, v) ∈ entries → P v) → P (.ymap entries))
    (hlist : ∀ items, (∀ v, v ∈ items → P v) → P (.ylist items)) :
    ∀ y, P y
  | .ystr s => hstr s
  | .yint n => hint n
  | .ybool b => hbool b
  | .ynull => hnull
  | .ymap entries => hmap entries (fun k v hv =>
      Yaml.recAux P hstr hint hbool hnull hmap hlist v)
  | .ylist items => hlist items (fun v hv =>
      Yaml.recAux P hstr hint hbool hnull hmap hlist v)
termination_by y => sizeOf y
decreasing_by
  · have h1 := List.sizeOf_lt_of_mem hv
    simp at *
    omega
  · have h1 := List.sizeOf_lt_of_mem hv
    simp at *
    omega

/-! ## Reference Scanner: soundness and completeness infrastructure -/
theorem renderSteps_cons (cur : String) (s : Step) (p : List Step) :
    renderSteps cur (s :: p) = renderSteps (stepStr cur s) p := rfl

theorem renderSteps_append (cur : String) (p q : List Step) :
    renderSteps cur (p ++ q) = renderSteps (renderSteps cur p) q := by
  induction p generalizing cur with
  | nil => rfl
  | cons s p ih => simp [renderSteps_cons, ih]

theorem recurseY_ymap (M : List String) (es : List (String × Yaml)) (cur : String) :
    recurseY M (.ymap es) cur = recurseMap M es cur := rfl

theorem recurseY_ylist (M : List String) (items : List Yaml) (cur : String) :
    recurseY M (.ylist items) cur = recurseList M items cur 0 := rfl

theorem recurseY_ystr (M : List String) (s cur : String) :
    recurseY M (.ystr s) cur = valFindings M cur s := rfl

theorem recurseY_yint (M : List String) (n : Int) (cur : String) :
    recurseY M (.yint n) cur = [] := rfl

theorem recurseY_ybool (M : List String) (b : Bool) (cur : String) :
    recurseY M (.ybool b) cur = [] := rfl

theorem recurseY_ynull (M : List String) (cur : String) :
    recurseY M .ynull cur = [] := rfl

theorem recurseMap_nil (M : List String) (cur : String) : recurseMap M [] cur = [] := rfl

theorem recurseMap_cons (M : List String) (k : String) (v : Yaml)
    (rest : List (String × Yaml)) (cur : String) :
    recurseMap M ((k, v) :: rest) cur =
      keyFindings M cur k v ++ recurseY M v (joinPath cur k) ++ recurseMap M rest cur := rfl

theorem recurseList_nil (M : List String) (cur : String) (i : Nat) :
    recurseList M [] cur i = [] := rfl

theorem recurseList_cons (M : List String) (item : Yaml) (rest : List Yaml)
    (cur : String) (i : Nat) :
    recurseList M (item :: rest) cur i =
      recurseY M item (idxPath cur i) ++ recurseList M rest cur (i + 1) := rfl

theorem keyFindings_mem (M : List String) (cur k : String) (v : Yaml) (f : Finding) :
    f ∈ keyFindings M cur k v ↔
      ∃ m, m ∈ M ∧ matchesCI m k = true ∧ f = keyFindingOf m cur k v := by
  simp only [keyFindings, List.mem_map, List.mem_filter]
  constructor
  · rintro ⟨m, ⟨hm, hmatch⟩, rfl⟩
    exact ⟨m, hm, hmatch, rfl⟩
  · rintro ⟨m, hm, hmatch, rfl⟩
    exact ⟨m, ⟨hm, hmatch⟩, rfl⟩

theorem valFindings_mem (M : List String) (cur s : String) (f : Finding) :
    f ∈ valFindings M cur s ↔
      ∃ m, m ∈ M ∧ matchesCI m s = true ∧ f = valueFindingOf m cur s := by
  simp only [valFindings, List.mem_map, List.mem_filter]
  constructor
  · rintro ⟨m, ⟨hm, hmatch⟩, rfl⟩
    exact ⟨m, hm, hmatch, rfl⟩
  · rintro ⟨m, hm, hmatch, rfl⟩
    exact ⟨m, ⟨hm, hmatch⟩, rfl⟩

theorem recurseMap_mem (M : List String) (f : Finding) :
    ∀ (es : List (String × Yaml)) (cur : String),
      (f ∈ recurseMap M es cur ↔
        ∃ k v, (k, v) ∈ es ∧
          (f ∈ keyFindings M cur k v ∨ f ∈ recurseY M v (joinPath cur k))) := by
  intro es
  induction es with
  | nil => intro cur; simp [recurseMap_nil]
  | cons kv rest ih =>
      intro cur
      obtain ⟨k, v⟩ := kv
      rw [recurseMap_cons]
      simp only [List.mem_append, ih, List.mem_cons]
      constructor
      · rintro ((h | h) | ⟨k2, v2, hmem, hcase⟩)
        · exact ⟨k, v, Or.inl rfl, Or.inl h⟩
        · exact ⟨k, v, Or.inl rfl, Or.inr h⟩
        · exact ⟨k2, v2, Or.inr hmem, hcase⟩
      · rintro ⟨k2, v2, (heq | hmem), hcase⟩
        · cases heq
          rcases hcase with h | h
          · exact Or.inl (Or.inl h)
          · exact Or.inl (Or.inr h)
        · exact Or.inr ⟨k2, v2, hmem, hcase⟩

theorem recurseList_mem (M : List String) (f : Finding) :
    ∀ (items : List Yaml) (cur : String) (i : Nat),
      (f ∈ recurseList M items cur i ↔
        ∃ j, ∃ h : j < items.length,
          f ∈ recurseY M (items.get ⟨j, h⟩) (idxPath cur (i + j))) := by
  intro items
  induction items with
  | nil => intro cur i; simp [recurseList_nil]
  | cons item rest ih =>
      intro cur i
      rw [recurseList_cons]
      simp only [List.mem_append, ih]
      constructor
      · rintro (h | ⟨j, hj, h⟩)
        · exact ⟨0, Nat.succ_pos _, h⟩
        · refine ⟨j + 1, Nat.succ_lt_succ hj, ?_⟩
          have e : i + (j + 1) = i + 1 + j := by omega
          rw [e]
          exact h
      · rintro ⟨j, hj, h⟩
        cases j with
        | zero => exact Or.inl h
        | succ j =>
            refine Or.inr ⟨j, Nat.lt_of_succ_lt_succ hj, ?_⟩
            have e : i + 1 + j = i + (j + 1) := by omega
            rw [e]
            exact h

theorem recurse_sound (M : List String) :
    ∀ (y : Yaml) (cur : String) (f : Finding), f ∈ recurseY M y cur →
      (∃ p es k v, ResolvesTo y p (.ymap es) ∧ (k, v) ∈ es ∧ f.marker ∈ M ∧
         matchesCI f.marker k = true ∧
         f = keyFindingOf f.marker (renderSteps cur p) k v) ∨
      (∃ p s, ResolvesTo y p (.ystr s) ∧ f.marker ∈ M ∧
         matchesCI f.marker s = true ∧
         f = valueFindingOf f.marker (renderSteps cur p) s) := by
  intro y
  induction y using Yaml.recAux with
  | hstr s =>
      intro cur f hf
      rw [recurseY_ystr, valFindings_mem] at hf
      obtain ⟨m, hm, hmatch, rfl⟩ := hf
      right
      exact ⟨[], s, ResolvesTo.nil _, hm, hmatch, rfl⟩
  | hint n =>
      intro cur f hf
      rw [recurseY_yint] at hf
      exact absurd hf (List.not_mem_nil f)
  | hbool b =>
      intro cur f hf
      rw [recurseY_ybool] at hf
      exact absurd hf (List.not_mem_nil f)
  | hnull =>
      intro cur f hf
      rw [recurseY_ynull] at hf
      exact absurd hf (List.not_mem_nil f)
  | hmap entries ih =>
      intro cur f hf
      rw [recurseY_ymap, recurseMap_mem] at hf
      obtain ⟨k, v, hkv, hcase⟩ := hf
      rcases hcase with hkf | hrec
      · rw [keyFindings_mem] at hkf
        obtain ⟨m, hm, hmatch, rfl⟩ := hkf
        left
        exact ⟨[], entries, k, v, ResolvesTo.nil _, hkv, hm, hmatch, rfl⟩
      · rcases ih k v hkv (joinPath cur k) f hrec with
          ⟨p, es2, k2, v2, hres, hmem2, hm, hmatch, heq⟩ |
          ⟨p, s, hres, hm, hmatch, heq⟩
        · left
          exact ⟨Step.field k :: p, es2, k2, v2, ResolvesTo.field hkv hres,
            hmem2, hm, hmatch, heq⟩
        · right
          exact ⟨Step.field k :: p, s, ResolvesTo.field hkv hres, hm, hmatch, heq⟩
  | hlist items ih =>
      intro cur f hf
      rw [recurseY_ylist, recurseList_mem] at hf
      obtain ⟨j, hj, hf⟩ := hf
      have e : (0 : Nat) + j = j := by omega
      rw [e] at hf
      have hmem := List.get_mem items j hj
      rcases ih _ hmem (idxPath cur j) f hf with
        ⟨p, es2, k2, v2, hres, hmem2, hm, hmatch, heq⟩ |
        ⟨p, s, hres, hm, hmatch, heq⟩
      · left
        exact ⟨Step.idx j :: p, es2, k2, v2, ResolvesTo.idx hj hres, hmem2, hm, hmatch, heq⟩
      · right
        exact ⟨Step.idx j :: p, s, ResolvesTo.idx hj hres, hm, hmatch, heq⟩

theorem recurse_complete (M : List String) (m : String) (hm : m ∈ M) :
    ∀ (y : Yaml) (cur : String),
      (∀ p s, ResolvesTo y p (.ystr s) → matchesCI m s = true →
         valueFindingOf m (renderSteps cur p) s ∈ recurseY M y cur) ∧
      (∀ p es k v, ResolvesTo y p (.ymap es) → (k, v) ∈ es → matchesCI m k = true →
         keyFindingOf m (renderSteps cur p) k v ∈ recurseY M y cur) := by
  intro y
  induction y using Yaml.recAux with
  | hstr s =>
      intro cur
      constructor
      · intro p s2 hres hmatch
        cases hres
        rw [recurseY_ystr, valFindings_mem]
        exact ⟨m, hm, hmatch, rfl⟩
      · intro p es k v hres
        cases hres
  | hint n =>
      intro cur
      constructor
      · intro p s hres
        cases hres
      · intro p es k v hres
        cases hres
  | hbool b =>
      intro cur
      constructor
      · intro p s hres
        cases hres
      · intro p es k v hres
        cases hres
  | hnull =>
      intro cur
      constructor
      · intro p s hres
        cases hres
      · intro p es k v hres
        cases hres
  | hmap entries ih =>
      intro cur
      constructor
      · intro p s hres hmatch
        cases hres with
        | field hkv hres2 =>
            rename_i k2 v2 p2
            have h := (ih k2 v2 hkv (joinPath cur k2)).1 p2 s hres2 hmatch
            rw [recurseY_ymap, recurseMap_mem]
            exact ⟨k2, v2, hkv, Or.inr h⟩
      · intro p es k v hres hkv hmatch
        cases hres with
        | nil =>
            rw [recurseY_ymap, recurseMap_mem]
            refine ⟨k, v, hkv, Or.inl ?_⟩
            rw [keyFindings_mem]
            exact ⟨m, hm, hmatch, rfl⟩
        | field hkv2 hres2 =>
            rename_i k2 v2 p2
            have h := (ih k2 v2 hkv2 (joinPath cur k2)).2 p2 es k v hres2 hkv hmatch
            rw [recurseY_ymap, recurseMap_mem]
            exact ⟨k2, v2, hkv2, Or.inr h⟩
  | hlist items ih =>
      intro cur
      constructor
      · intro p s hres hmatch
        cases hres with
        | idx hlt hres2 =>
            rename_i j p2
            have hmem := List.get_mem items j hlt
            have h := (ih _ hmem (idxPath cur j)).1 p2 s hres2 hmatch
            rw [recurseY_ylist, recurseList_mem]
            refine ⟨j, hlt, ?_⟩
            have e : (0 : Nat) + j = j := by omega
            rw [e]
            exact h
      · intro p es k v hres hkv hmatch
        cases hres with
        | idx hlt hres2 =>
            rename_i j p2
            have hmem := List.get_mem items j hlt
            have h := (ih _ hmem (idxPath cur j)).2 p2 es k v hres2 hkv hmatch
            rw [recurseY_ylist, recurseList_mem]
            refine ⟨j, hlt, ?_⟩
            have e : (0 : Nat) + j = j := by omega
            rw [e]
            exact h

/-- C1: every Finding returned by the Reference Scanner refers to a path
that exists in the scanned document at the recorded type: a key-match
Finding's path renders an access path ending in a map key present in the
document, and a value-match Finding's path renders an access path to a
string scalar present in the document. -/
theorem scanner_findings_refer_to_document (D : Yaml) (M : List String) (f : Finding)
    (hf : f ∈ search_database_references D M) :
    (f.type = "key_match" ∨ f.type = "value_match") ∧
    (f.type = "key_match" →
      ∃ p es k v, ResolvesTo D p (.ymap es) ∧ (k, v) ∈ es ∧ f.key = some k ∧
        f.path = renderSteps "" (p ++ [Step.field k])) ∧
    (f.type = "value_match" →
      ∃ p s, ResolvesTo D p (.ystr s) ∧ f.value = RecVal.prim (.ystr s) ∧
        f.path = renderSteps "" p) := by
  rcases recurse_sound M D "" f hf with
    ⟨p, es, k, v, hres, hkv, hm, hmatch, heq⟩ | ⟨p, s, hres, hm, hmatch, heq⟩
  · have hty : f.type = "key_match" := by rw [heq]; rfl
    refine ⟨Or.inl hty, fun _ => ⟨p, es, k, v, hres, hkv, by rw [heq]; rfl, ?_⟩, fun hvt => ?_⟩
    · rw [heq, renderSteps_append]
      rfl
    · rw [hty] at hvt
      exact absurd hvt (by decide)
  · have hty : f.type = "value_match" := by rw [heq]; rfl
    refine ⟨Or.inr hty, fun hkt => ?_, fun _ => ⟨p, s, hres, by rw [heq]; rfl, by rw [heq]; rfl⟩⟩
    rw [hty] at hkt
    exact absurd hkt (by decide)

theorem scanner_findings_refer_to_document_witness :
    ∃ p es k v,
      ResolvesTo (Yaml.ymap [("AX_HOST", Yaml.ystr "10.0.0.1")]) p (.ymap es) ∧
      (k, v) ∈ es ∧
      (keyFindingOf "AX" "" "AX_HOST" (Yaml.ystr "10.0.0.1")).key = some k ∧
      (keyFindingOf "AX" "" "AX_HOST" (Yaml.ystr "10.0.0.1")).path =
        renderSteps "" (p ++ [Step.field k]) :=
  (scanner_findings_refer_to_document (Yaml.ymap [("AX_HOST", Yaml.ystr "10.0.0.1")])
      ["AX", "AE", "SAS", "RSA"] (keyFindingOf "AX" "" "AX_HOST" (Yaml.ystr "10.0.0.1"))
      (List.Mem.head _)).2.1 rfl

/-- C2 counterexample: the claim states that a key-match Finding records
the associated value itself whenever that value is a primitive scalar,
null included.  On the document with the single entry `AX: null` the only
Finding records the opaque tag `"<NoneType>"`, not the null value. -/
theorem key_match_null_counterexample :
    search_database_references (Yaml.ymap [("AX", Yaml.ynull)]) ["AX", "AE", "SAS", "RSA"] =
      [{ type := "key_match", marker := "AX", path := "AX", key := some "AX",
         value := RecVal.tag "<NoneType>" }] ∧
    RecVal.tag "<NoneType>" ≠ RecVal.prim Yaml.ynull := by
  exact ⟨rfl, fun h => RecVal.noConfusion h⟩

/-- C2 (amended): a key-match Finding's recorded value equals the
associated value when that value is a string, a number, or a boolean; it
is an opaque type tag when the value is a map, a sequence, or null. -/
theorem key_match_recorded_value (D : Yaml) (M : List String) (f : Finding)
    (hf : f ∈ search_database_references D M) (hty : f.type = "key_match") :
    ∃ p es k v, ResolvesTo D p (.ymap es) ∧ (k, v) ∈ es ∧ f.key = some k ∧
      (∀ s, v = .ystr s → f.value = RecVal.prim v) ∧
      (∀ n, v = .yint n → f.value = RecVal.prim v) ∧
      (∀ b, v = .ybool b → f.value = RecVal.prim v) ∧
      (v = .ynull → f.value = RecVal.tag "<NoneType>") ∧
      (∀ es2, v = .ymap es2 → f.value = RecVal.tag "<dict>") ∧
      (∀ l, v = .ylist l → f.value = RecVal.tag "<list>") := by
  rcases recurse_sound M D "" f hf with
    ⟨p, es, k, v, hres, hkv, hm, hmatch, heq⟩ | ⟨p, s, hres, hm, hmatch, heq⟩
  · have hv : f.value = recordValue v := by rw [heq]; rfl
    refine ⟨p, es, k, v, hres, hkv, by rw [heq]; rfl, ?_, ?_, ?_, ?_, ?_, ?_⟩
    · intro s hs
      subst hs
      rw [hv]
      rfl
    · intro n hn
      subst hn
      rw [hv]
      rfl
    · intro b hb
      subst hb
      rw [hv]
      rfl
    · intro hn
      subst hn
      rw [hv]
      rfl
    · intro es2 he
      subst he
      rw [hv]
      rfl
    · intro l hl
      subst hl
      rw [hv]
      rfl
  · have hvt : f.type = "value_match" := by rw [heq]; rfl
    rw [hty] at hvt
    exact absurd hvt (by decide)

theorem key_match_recorded_value_witness :
    ∃ p es k v,
      ResolvesTo (Yaml.ymap [("RSA_KEY", Yaml.ynull)]) p (.ymap es) ∧ (k, v) ∈ es ∧
      (keyFindingOf "RSA" "" "RSA_KEY" Yaml.ynull).key = some k ∧
      (∀ s, v = .ystr s → (keyFindingOf "RSA" "" "RSA_KEY" Yaml.ynull).value = RecVal.prim v) ∧
      (∀ n, v = .yint n → (keyFindingOf "RSA" "" "RSA_KEY" Yaml.ynull).value = RecVal.prim v) ∧
      (∀ b, v = .ybool b → (keyFindingOf "RSA" "" "RSA_KEY" Yaml.ynull).value = RecVal.prim v) ∧
      (v = .ynull → (keyFindingOf "RSA" "" "RSA_KEY" Yaml.ynull).value = RecVal.tag "<NoneType>") ∧
      (∀ es2, v = .ymap es2 → (keyFindingOf "RSA" "" "RSA_KEY" Yaml.ynull).value = RecVal.tag "<dict>") ∧
      (∀ l, v = .ylist l → (keyFindingOf "RSA" "" "RSA_KEY" Yaml.ynull).value = RecVal.tag "<list>") :=
  key_match_recorded_value (Yaml.ymap [("RSA_KEY", Yaml.ynull)]) ["AX", "AE", "SAS", "RSA"]
    (keyFindingOf "RSA" "" "RSA_KEY" Yaml.ynull) (List.Mem.head _) rfl

/-- C3: every string scalar of the document containing a case-variant of a
marker yields a value-match Finding for that marker, and every map key
containing a case-variant of a marker yields a key-match Finding for that
marker: the substring test is case-insensitive for both keys and values. -/
theorem scanner_case_insensitive_complete (D : Yaml) (M : List String) (m : String)
    (hm : m ∈ M) :
    (∀ p s, ResolvesTo D p (.ystr s) →
       (∃ u t w, s.data = u ++ t ++ w ∧ t.map Char.toLower = m.data.map Char.toLower) →
       { type := "value_match", marker := m, path := renderSteps "" p, key := none,
         value := RecVal.prim (.ystr s) } ∈ search_database_references D M) ∧
    (∀ p es k v, ResolvesTo D p (.ymap es) → (k, v) ∈ es →
       (∃ u t w, k.data = u ++ t ++ w ∧ t.map Char.toLower = m.data.map Char.toLower) →
       { type := "key_match", marker := m, path := joinPath (renderSteps "" p) k,
         key := some k, value := recordValue v } ∈ search_database_references D M) := by
  constructor
  · intro p s hres hvar
    exact (recurse_complete M m hm D "").1 p s hres (matchesCI_of_variant m s hvar)
  · intro p es k v hres hkv hvar
    exact (recurse_complete M m hm D "").2 p es k v hres hkv (matchesCI_of_variant m k hvar)

theorem scanner_case_insensitive_complete_witness :
    { type := "value_match", marker := "AX",
      path := renderSteps "" [Step.field "nested", Step.idx 1], key := none,
      value := RecVal.prim (.ystr "ax-prod-host") } ∈
      search_database_references
        (Yaml.ymap [("nested", Yaml.ylist [Yaml.ystr "safe", Yaml.ystr "ax-prod-host"])])
        ["AX", "AE", "SAS", "RSA"] :=
  (scanner_case_insensitive_complete
      (Yaml.ymap [("nested", Yaml.ylist [Yaml.ystr "safe", Yaml.ystr "ax-prod-host"])])
      ["AX", "AE", "SAS", "RSA"] "AX" (List.Mem.head _)).1
    [Step.field "nested", Step.idx 1] "ax-prod-host"
    (ResolvesTo.field (List.Mem.head _) (ResolvesTo.idx (by decide) (ResolvesTo.nil _)))
    ⟨[], ['a', 'x'], "-prod-host".data, by decide, by decide⟩

/-! ## Extractor infrastructure -/

theorem splitlinesGo_other {c : Char} (h : ¬ c = '\n') (acc rest : List Char) :
    splitlinesGo acc (c :: rest) = splitlinesGo (c :: acc) rest := by
  simp [splitlinesGo, h]

theorem splitlinesGo_no_newline :
    ∀ (l : List Char), (∀ c ∈ l, c ≠ '\n') → ∀ acc,
      splitlinesGo acc l = [acc.reverse ++ l] := by
  intro l
  induction l with
  | nil => intro _ acc; simp [splitlinesGo]
  | cons c cs ih =>
      intro h acc
      have hc : ¬ c = '\n' := h c (List.mem_cons_self c cs)
      rw [splitlinesGo_other hc]
      rw [ih (fun x hx => h x (List.mem_cons_of_mem c hx))]
      simp

theorem splitlinesGo_with_newline :
    ∀ (l : List Char), (∀ c ∈ l, c ≠ '\n') → ∀ (acc rest : List Char), rest ≠ [] →
      splitlinesGo acc (l ++ '\n' :: rest) = (acc.reverse ++ l) :: splitlinesGo [] rest := by
  intro l
  induction l with
  | nil =>
      intro _ acc rest hrest
      cases rest with
      | nil => exact absurd rfl hrest
      | cons r rs => simp [splitlinesGo]
  | cons c cs ih =>
      intro h acc rest hrest
      have hc : ¬ c = '\n' := h c (List.mem_cons_self c cs)
      have heq : (c :: cs) ++ '\n' :: rest = c :: (cs ++ '\n' :: rest) := rfl
      rw [heq, splitlinesGo_other hc]
      rw [ih (fun x hx => h x (List.mem_cons_of_mem c hx)) _ rest hrest]
      simp

theorem splitlinesChars_of_ne_nil (cs : List Char) (h : cs ≠ []) :
    splitlinesChars cs = splitlinesGo [] cs := by
  cases cs with
  | nil => exact absurd rfl h
  | cons c rest => rfl

theorem joinLinesChars_cons (l : List Char) (rest : List (List Char)) (h : rest ≠ []) :
    joinLinesChars (l :: rest) = l ++ '\n' :: joinLinesChars rest := by
  cases rest with
  | nil => exact absurd rfl h
  | cons r rs => rfl

theorem joinLinesChars_ne_nil (LL : List (List Char)) (z : List Char) (hz : z ≠ []) :
    joinLinesChars (LL ++ [z]) ≠ [] := by
  cases LL with
  | nil => simpa [joinLinesChars] using hz
  | cons l rest =>
      rw [List.cons_append, joinLinesChars_cons _ _ (by simp)]
      simp

theorem split_join (LL : List (List Char)) (z : List Char)
    (hLL : ∀ l ∈ LL, ∀ c ∈ l, c ≠ '\n') (hz : ∀ c ∈ z, c ≠ '\n') (hzn : z ≠ []) :
    splitlinesChars (joinLinesChars (LL ++ [z])) = LL ++ [z] := by
  induction LL with
  | nil =>
      simp only [List.nil_append, joinLinesChars]
      rw [splitlinesChars_of_ne_nil z hzn, splitlinesGo_no_newline z hz]
      simp
  | cons l rest ih =>
      have hrest : joinLinesChars (rest ++ [z]) ≠ [] := joinLinesChars_ne_nil rest z hzn
      rw [List.cons_append, joinLinesChars_cons _ _ (by simp)]
      rw [splitlinesChars_of_ne_nil _ (by simp)]
      rw [splitlinesGo_with_newline l (hLL l (List.mem_cons_self l _)) [] _ hrest]
      rw [← splitlinesChars_of_ne_nil _ hrest]
      rw [ih (fun x hx => hLL x (List.mem_cons_of_mem l hx))]
      simp

theorem collectLines_false_cons (l : List Char) (rest : List (List Char)) :
    collectLines false (l :: rest) =
      if isStartLine l then l :: collectLines true rest else collectLines false rest := rfl

theorem collectLines_true_cons (l : List Char) (rest : List (List Char)) :
    collectLines true (l :: rest) =
      if isStopLine l then [] else l :: collectLines true rest := rfl

theorem collectLines_skip (B : List (List Char)) (rest : List (List Char))
    (hB : ∀ b ∈ B, isStartLine b = false) :
    collectLines false (B ++ rest) = collectLines false rest := by
  induction B with
  | nil => rfl
  | cons b B ih =>
      rw [List.cons_append, collectLines_false_cons,
        if_neg (by simp [hB b (List.mem_cons_self b B)]),
        ih (fun x hx => hB x (List.mem_cons_of_mem b hx))]

theorem collectLines_body (Y : List (List Char)) (z : List Char) (tail : List (List Char))
    (hY : ∀ y ∈ Y, isStopLine y = false) (hz : isStopLine z = true) :
    collectLines true (Y ++ z :: tail) = Y := by
  induction Y with
  | nil => rw [List.nil_append, collectLines_true_cons, if_pos hz]
  | cons y Y ih =>
      rw [List.cons_append, collectLines_true_cons,
        if_neg (by simp [hY y (List.mem_cons_self y Y)]),
        ih (fun x hx => hY x (List.mem_cons_of_mem y hx))]

theorem collectLines_none (L : List (List Char))
    (hL : ∀ l ∈ L, isStartLine l = false) :
    collectLines false L = [] := by
  induction L with
  | nil => rfl
  | cons l L ih =>
      rw [collectLines_false_cons, if_neg (by simp [hL l (List.mem_cons_self l L)]),
        ih (fun x hx => hL x (List.mem_cons_of_mem l hx))]

/-- C7: the Config Extractor returns exactly the lines from the
`service: my-service` line (inclusive) up to the trailing `Serverless: Done`
line (exclusive), and returns its input unchanged when no line carries a
start marker. -/
theorem extractor_round_trip_and_fallback :
    (∀ B Y : List String,
       (∀ b ∈ B, (∀ c ∈ b.data, c ≠ '\n') ∧ isStartLine b.data = false) →
       (∀ y ∈ Y, (∀ c ∈ y.data, c ≠ '\n') ∧ isStopLine y.data = false) →
       extract_yaml_from_output
           (joinLines (B ++ ["service: my-service"] ++ Y ++ ["Serverless: Done"])) =
         joinLines ("service: my-service" :: Y)) ∧
    (∀ s : String, (∀ l ∈ splitlinesChars s.data, isStartLine l = false) →
       extract_yaml_from_output s = s) := by
  constructor
  · intro B Y hB hY
    have hdata : (joinLines (B ++ ["service: my-service"] ++ Y ++ ["Serverless: Done"])).data
        = joinLinesChars ((B.map String.data ++
            "service: my-service".data :: Y.map String.data) ++ ["Serverless: Done".data]) := by
      show joinLinesChars ((B ++ ["service: my-service"] ++ Y ++ ["Serverless: Done"]).map String.data) = _
      congr 1
      simp
    have hsplit : splitlinesChars
        ((joinLines (B ++ ["service: my-service"] ++ Y ++ ["Serverless: Done"])).data)
        = (B.map String.data ++ "service: my-service".data :: Y.map String.data) ++
            ["Serverless: Done".data] := by
      rw [hdata]
      apply split_join
      · intro l hl
        simp only [List.mem_append, List.mem_cons, List.mem_map] at hl
        rcases hl with (⟨b, hbB, rfl⟩ | rfl | ⟨y, hyY, rfl⟩)
        · exact (hB b hbB).1
        · decide
        · exact (hY y hyY).1
      · decide
      · decide
    have hcollect : collectLines false
        ((B.map String.data ++ "service: my-service".data :: Y.map String.data) ++
          ["Serverless: Done".data])
        = "service: my-service".data :: Y.map String.data := by
      rw [List.append_assoc]
      rw [collectLines_skip _ _ (fun l hl => by
        simp only [List.mem_map] at hl
        obtain ⟨b, hbB, rfl⟩ := hl
        exact (hB b hbB).2)]
      rw [List.cons_append, collectLines_false_cons, if_pos (by decide)]
      rw [collectLines_body _ _ _ (fun l hl => by
        simp only [List.mem_map] at hl
        obtain ⟨y, hyY, rfl⟩ := hl
        exact (hY y hyY).2) (by decide)]
    show (if (collectLines false (splitlinesChars
        (joinLines (B ++ ["service: my-service"] ++ Y ++ ["Serverless: Done"])).data)).isEmpty
      then joinLines (B ++ ["service: my-service"] ++ Y ++ ["Serverless: Done"])
      else ⟨joinLinesChars (collectLines false (splitlinesChars
        (joinLines (B ++ ["service: my-service"] ++ Y ++ ["Serverless: Done"])).data))⟩)
      = joinLines ("service: my-service" :: Y)
    rw [hsplit, hcollect]
    rfl
  · intro s hs
    show (if (collectLines false (splitlinesChars s.data)).isEmpty
        then s else ⟨joinLinesChars (collectLines false (splitlinesChars s.data))⟩) = s
    rw [collectLines_none _ hs]
    rfl

theorem extractor_round_trip_and_fallback_witness :
    extract_yaml_from_output "Banner\nservice: my-service\nkey: value\nServerless: Done"
        = "service: my-service\nkey: value" ∧
    extract_yaml_from_output "plain log output" = "plain log output" := by
  constructor
  · have h := extractor_round_trip_and_fallback.1 ["Banner"] ["key: value"]
      (by intro b hb; rw [List.mem_singleton] at hb; subst hb; exact ⟨by decide, by decide⟩)
      (by intro y hy; rw [List.mem_singleton] at hy; subst hy; exact ⟨by decide, by decide⟩)
    exact h
  · exact extractor_round_trip_and_fallback.2 "plain log output" (by decide)

/-! ## Filesystem lemmas -/

theorem FS.files_write_self (fs : FS) (p : FPath) (c : String) :
    (fs.write p c).files p = some c := by simp [FS.write]

theorem FS.files_write_ne (fs : FS) (p q : FPath) (c : String) (h : q ≠ p) :
    (fs.write p c).files q = fs.files q := by simp [FS.write, h]

theorem FS.dirs_write (fs : FS) (p : FPath) (c : String) :
    (fs.write p c).dirs = fs.dirs := rfl

theorem FS.files_mkdirs (fs : FS) (p : FPath) : (fs.mkdirs p).files = fs.files := rfl

theorem FS.dirs_mkdirs_ne (fs : FS) (p q : FPath) (h : q ≠ p) :
    (fs.mkdirs p).dirs q = fs.dirs q := by simp [FS.mkdirs, h]

theorem proj_ne_migration (pp : String) : ([pp] : FPath) ≠ migrationDir pp := by
  simp [migrationDir]

theorem proj_ne_resolved (pp ts : String) : ([pp] : FPath) ≠ resolvedPath pp ts := by
  simp [resolvedPath, migrationDir]

theorem proj_ne_gitignore (pp : String) : ([pp] : FPath) ≠ gitignorePath pp := by
  simp [gitignorePath]

theorem resolved_ne_gitignore (pp ts : String) :
    resolvedPath pp ts ≠ gitignorePath pp := by
  simp [resolvedPath, migrationDir, gitignorePath]

theorem gitignore_ne_resolved (pp ts : String) :
    gitignorePath pp ≠ resolvedPath pp ts := by
  simp [resolvedPath, migrationDir, gitignorePath]

theorem gitignore_ne_migration (pp : String) :
    gitignorePath pp ≠ migrationDir pp := by
  simp [gitignorePath, migrationDir]

/-! ## Config Persister lemmas -/

theorem persist_files_resolved (fs : FS) (pp ts yc : String) :
    ((persist_resolved_config fs pp ts yc).1).files (resolvedPath pp ts) = some yc := by
  unfold persist_resolved_config
  dsimp only
  split
  · split
    · split
      · simp [FS.write, FS.mkdirs]
      · simp [FS.write, FS.mkdirs, resolved_ne_gitignore]
    · simp [FS.write, FS.mkdirs]
  · simp [FS.write, FS.mkdirs, resolved_ne_gitignore]

theorem persist_exists_proj (fs : FS) (pp ts yc : String) :
    ((persist_resolved_config fs pp ts yc).1).existsPath [pp] = fs.existsPath [pp] := by
  unfold persist_resolved_config
  dsimp only
  split
  · split
    · split
      · simp [FS.existsPath, FS.write, FS.mkdirs, proj_ne_migration, proj_ne_resolved,
          proj_ne_gitignore]
      · simp [FS.existsPath, FS.write, FS.mkdirs, proj_ne_migration, proj_ne_resolved,
          proj_ne_gitignore]
    · simp [FS.existsPath, FS.write, FS.mkdirs, proj_ne_migration, proj_ne_resolved]
  · simp [FS.existsPath, FS.write, FS.mkdirs, proj_ne_migration, proj_ne_resolved,
      proj_ne_gitignore]

/-! ## Config Resolver lemmas -/

theorem fast_path_eq (env : Env) (fs : FS) (pp : String) (st : Option String)
    (ds content : String) (doc : Yaml)
    (h1 : fs.existsPath [pp] = true)
    (h2 : fs.files (resolvedPath pp (st.getD ds)) = some content)
    (h3 : env.parse content = .ok doc) :
    get_serverless_config env fs pp st ds =
      (.ok { mkBase pp (st.getD ds) with
              serverless_config := doc,
              method := "existing_resolved_file",
              resolved_config_path := some (resolvedPath pp (st.getD ds)) },
       fs, false) := by
  have hex : fs.existsPath (resolvedPath pp (st.getD ds)) = true := by
    unfold FS.existsPath
    rw [h2]
    simp
  simp [get_serverless_config, h1, hex, h2, h3]

/-- C4: when the cache file exists and parses, the resolver returns the
parsed document with method tag `existing_resolved_file`, leaves the
filesystem unchanged and does not invoke the subprocess (third component
`false`); when the cache file exists but parsing raises, the call is
exactly the fresh-resolution path, for any parse-error text, so the parse
error is neither propagated nor reported. -/
theorem config_resolver_cache_paths :
    (∀ (env : Env) (fs : FS) (pp : String) (st : Option String) (ds content : String)
       (doc : Yaml),
       fs.existsPath [pp] = true →
       fs.files (resolvedPath pp (st.getD ds)) = some content →
       env.parse content = .ok doc →
       get_serverless_config env fs pp st ds =
         (.ok { mkBase pp (st.getD ds) with
                 serverless_config := doc,
                 method := "existing_resolved_file",
                 resolved_config_path := some (resolvedPath pp (st.getD ds)) },
          fs, false)) ∧
    (∀ (env : Env) (fs : FS) (pp : String) (st : Option String) (ds content e : String),
       fs.existsPath [pp] = true →
       fs.files (resolvedPath pp (st.getD ds)) = some content →
       env.parse content = .error e →
       get_serverless_config env fs pp st ds = freshResolve env fs pp (st.getD ds)) := by
  constructor
  · intro env fs pp st ds content doc h1 h2 h3
    exact fast_path_eq env fs pp st ds content doc h1 h2 h3
  · intro env fs pp st ds content e h1 h2 h3
    have hex : fs.existsPath (resolvedPath pp (st.getD ds)) = true := by
      unfold FS.existsPath
      rw [h2]
      simp
    simp [get_serverless_config, h1, hex, h2, h3]

theorem config_resolver_cache_paths_witness :
    get_serverless_config envCached fsCached "proj" none "TEST" =
      (.ok { mkBase "proj" "TEST" with
              serverless_config := .ymap [("service", .ystr "x")],
              method := "existing_resolved_file",
              resolved_config_path := some (resolvedPath "proj" "TEST") },
       fsCached, false) ∧
    get_serverless_config envCached fsBadCached "proj" none "TEST" =
      freshResolve envCached fsBadCached "proj" "TEST" :=
  ⟨config_resolver_cache_paths.1 envCached fsCached "proj" none "TEST" "service: x"
      (.ymap [("service", .ystr "x")]) rfl rfl rfl,
   config_resolver_cache_paths.2 envCached fsBadCached "proj" none "TEST" "garbage" "bad"
      rfl rfl rfl⟩

/-- C10: whenever the cache file exists and parsing does not raise, the
document it parses to is returned as-is on the fast path, even when it is
null (an empty or comment-only file parses to Python `None`), with method
tag `existing_resolved_file` and no subprocess invocation. -/
theorem cached_null_fast_path (env : Env) (fs : FS) (pp : String) (st : Option String)
    (ds content : String) (doc : Yaml)
    (h1 : fs.existsPath [pp] = true)
    (h2 : fs.files (resolvedPath pp (st.getD ds)) = some content)
    (h3 : env.parse content = .ok doc) :
    ∃ r, get_serverless_config env fs pp st ds = (.ok r, fs, false) ∧
      r.method = "existing_resolved_file" ∧ r.serverless_config = doc := by
  refine ⟨_, fast_path_eq env fs pp st ds content doc h1 h2 h3, rfl, rfl⟩

theorem cached_null_fast_path_witness :
    ∃ r, get_serverless_config envNull fsNullCached "proj" none "TEST" =
        (.ok r, fsNullCached, false) ∧
      r.method = "existing_resolved_file" ∧ r.serverless_config = .ynull :=
  cached_null_fast_path envNull fsNullCached "proj" none "TEST" "" .ynull rfl rfl rfl

/-- C6 counterexample: on an empty filesystem (project path absent) the
credentials tool fails with a `ResolvedConfigNotFound` report, which is not
the path-not-found report the claim requires; no project-path check is
performed by this tool. -/
theorem find_database_credentials_no_path_report_counterexample :
    find_database_credentials envTrivial fsEmpty "proj" none "TEST" =
      .errorResult "ResolvedConfigNotFound"
        (some ("Could not find resolved config at " ++
               pathStr (resolvedPath "proj" "TEST") ++
               ". Please run get_serverless_config first.")) ∧
    "ResolvedConfigNotFound" ≠ "Path does not exist: proj" := by
  constructor
  · rfl
  · decide

/-- C6 (amended): `check_project_dependencies` and `get_serverless_config`
re-check project-path existence on every call and fail with the
path-not-found report before any other work; `find_database_credentials`
does not check the project path itself but checks the resolved cache file
path (which cannot exist below an absent project path on a real
filesystem) and fails with a `ResolvedConfigNotFound` report before any
other work. -/
theorem project_path_rechecked :
    (∀ (fs : FS) (pp : String) (ctx : Option Elic),
       fs.existsPath [pp] = false →
       check_project_dependencies fs pp ctx = .pathError ("Path does not exist: " ++ pp)) ∧
    (∀ (env : Env) (fs : FS) (pp : String) (st : Option String) (ds : String),
       fs.existsPath [pp] = false →
       get_serverless_config env fs pp st ds =
         (.pathError ("Path does not exist: " ++ pp), fs, false)) ∧
    (∀ (env : Env) (fs : FS) (pp : String) (st : Option String) (ds : String),
       fs.existsPath (resolvedPath pp (st.getD ds)) = false →
       find_database_credentials env fs pp st ds =
         .errorResult "ResolvedConfigNotFound"
           (some ("Could not find resolved config at " ++
                  pathStr (resolvedPath pp (st.getD ds)) ++
                  ". Please run get_serverless_config first."))) := by
  refine ⟨?_, ?_, ?_⟩
  · intro fs pp ctx h
    simp [check_project_dependencies, h]
  · intro env fs pp st ds h
    simp [get_serverless_config, h]
  · intro env fs pp st ds h
    simp [find_database_credentials, h]

theorem project_path_rechecked_witness :
    check_project_dependencies fsEmpty "proj" none = .pathError "Path does not exist: proj" ∧
    get_serverless_config envTrivial fsEmpty "proj" none "TEST" =
      (.pathError "Path does not exist: proj", fsEmpty, false) ∧
    find_database_credentials envTrivial fsEmpty "proj" none "TEST" =
      .errorResult "ResolvedConfigNotFound"
        (some ("Could not find resolved config at " ++
               pathStr (resolvedPath "proj" "TEST") ++
               ". Please run get_serverless_config first.")) :=
  ⟨project_path_rechecked.1 fsEmpty "proj" none rfl,
   project_path_rechecked.2.1 envTrivial fsEmpty "proj" none "TEST" rfl,
   project_path_rechecked.2.2 envTrivial fsEmpty "proj" none "TEST" rfl⟩

/-- C9: on an existing project path, the Dependency Gate returns success
immediately when `node_modules` exists; when it is absent and no
interactive channel is available, it returns the generic
`MissingDependencies` failure with a suggested remediation command. -/
theorem dependency_gate_outcomes :
    (∀ (fs : FS) (pp : String) (ctx : Option Elic),
       fs.existsPath [pp] = true →
       fs.existsPath [pp, "node_modules"] = true →
       check_project_dependencies fs pp ctx = .success) ∧
    (∀ (fs : FS) (pp : String),
       fs.existsPath [pp] = true →
       fs.existsPath [pp, "node_modules"] = false →
       check_project_dependencies fs pp none =
         .missingDeps "MissingDependencies"
           ("Missing node_modules in " ++ pp ++ ". Please install dependencies first.")
           "npm i --dd" "install_dependencies") := by
  constructor
  · intro fs pp ctx h1 h2
    simp [check_project_dependencies, validate_dependencies, h1, h2]
  · intro fs pp h1 h2
    simp [check_project_dependencies, validate_dependencies, h1, h2]

theorem dependency_gate_outcomes_witness :
    check_project_dependencies fsProjDeps "proj" none = .success ∧
    check_project_dependencies fsProj "proj" none =
      .missingDeps "MissingDependencies"
        "Missing node_modules in proj. Please install dependencies first."
        "npm i --dd" "install_dependencies" :=
  ⟨dependency_gate_outcomes.1 fsProjDeps "proj" none rfl rfl,
   dependency_gate_outcomes.2 fsProj "proj" rfl rfl⟩

theorem fresh_success (env : Env) (fs : FS) (pp ts : String) (r1 : Results) (fs1 : FS)
    (b1 : Bool) (h : freshResolve env fs pp ts = (.ok r1, fs1, b1))
    (hm : r1.method = "serverless_print") :
    ∃ proc rcp,
      env.run pp ts = .ok proc ∧ proc.returncode = 0 ∧
      persist_resolved_config fs pp ts (extract_yaml_from_output proc.stdout) =
        (fs1, some rcp) ∧
      env.parse (extract_yaml_from_output proc.stdout) = .ok r1.serverless_config := by
  unfold freshResolve at h
  dsimp only at h
  split at h
  · simp at h
  · split at h
    · simp only [Prod.mk.injEq, ConfigOutcome.ok.injEq] at h
      obtain ⟨hr, _, _⟩ := h
      rw [← hr] at hm
      simp [mkBase] at hm
    · rename_i proc hrun
      split at h
      · rename_i hrc
        split at h
        · simp only [Prod.mk.injEq, ConfigOutcome.ok.injEq] at h
          obtain ⟨hr, _, _⟩ := h
          rw [← hr] at hm
          simp [mkBase] at hm
        · rename_i fs2 rcp hpersist
          split at h
          · rename_i doc hparse
            simp only [Prod.mk.injEq, ConfigOutcome.ok.injEq] at h
            obtain ⟨hr, hfs, hb⟩ := h
            refine ⟨proc, rcp, hrun, hrc, ?_, ?_⟩
            · rw [hpersist, hfs]
            · rw [hparse, ← hr]
          · simp only [Prod.mk.injEq, ConfigOutcome.ok.injEq] at h
            obtain ⟨hr, _, _⟩ := h
            rw [← hr] at hm
            simp [mkBase] at hm
      · simp only [Prod.mk.injEq, ConfigOutcome.ok.injEq] at h
        obtain ⟨hr, _, _⟩ := h
        rw [← hr] at hm
        simp [mkBase] at hm

/-- C5: a fully successful fresh resolution followed by a second call for
the same project and stage, with the same oracles, yields the same
document, and the second call takes the cached fast path without invoking
the subprocess. -/
theorem config_resolver_idempotent (env : Env) (fs : FS) (pp : String)
    (st : Option String) (ds : String) (r1 : Results) (fs1 : FS) (b1 : Bool)
    (hcall : get_serverless_config env fs pp st ds = (.ok r1, fs1, b1))
    (hm : r1.method = "serverless_print") (herr : r1.errors = []) :
    ∃ r2 fs2, get_serverless_config env fs1 pp st ds = (.ok r2, fs2, false) ∧
      r2.serverless_config = r1.serverless_config ∧
      r2.method = "existing_resolved_file" := by
  unfold get_serverless_config at hcall
  dsimp only at hcall
  split at hcall
  · simp at hcall
  · rename_i hproj
    have hfresh : freshResolve env fs pp (st.getD ds) = (.ok r1, fs1, b1) := by
      split at hcall
      · split at hcall
        · split at hcall
          · simp only [Prod.mk.injEq, ConfigOutcome.ok.injEq] at hcall
            obtain ⟨hr, _, _⟩ := hcall
            rw [← hr] at hm
            simp [mkBase] at hm
          · exact hcall
        · exact hcall
      · exact hcall
    obtain ⟨proc, rcp, hrun, hrc, hpersist, hparse⟩ :=
      fresh_success env fs pp (st.getD ds) r1 fs1 b1 hfresh hm
    have hfs1 : (persist_resolved_config fs pp (st.getD ds)
        (extract_yaml_from_output proc.stdout)).1 = fs1 := by rw [hpersist]
    have h1 : fs1.existsPath [pp] = true := by
      rw [← hfs1, persist_exists_proj]
      cases hb : fs.existsPath [pp]
      · exact absurd hb hproj
      · rfl
    have h2 : fs1.files (resolvedPath pp (st.getD ds)) =
        some (extract_yaml_from_output proc.stdout) := by
      rw [← hfs1]
      exact persist_files_resolved fs pp (st.getD ds) (extract_yaml_from_output proc.stdout)
    exact ⟨_, fs1, fast_path_eq env fs1 pp st ds _ _ h1 h2 hparse, rfl, rfl⟩

theorem config_resolver_idempotent_witness :
    ∃ r2 fs2,
      get_serverless_config envRun
          ((get_serverless_config envRun fsProjDeps "proj" none "TEST").2.1)
          "proj" none "TEST" = (.ok r2, fs2, false) ∧
      r2.serverless_config = .ymap [("service", .ystr "x")] ∧
      r2.method = "existing_resolved_file" :=
  config_resolver_idempotent envRun fsProjDeps "proj" none "TEST"
    { mkBase "proj" "TEST" with
        resolved_config_path := some (resolvedPath "proj" "TEST"),
        serverless_config := .ymap [("service", .ystr "x")],
        method := "serverless_print" }
    ((get_serverless_config envRun fsProjDeps "proj" none "TEST").2.1) true
    rfl rfl rfl

/-! ## Occurrence-counting lemmas for the ignore pattern -/

theorem subCount_cons (n : List Char) (c : Char) (rest : List Char) :
    subCount n (c :: rest) =
      (if charsLeads n (c :: rest) then 1 else 0) + subCount n rest := rfl

theorem subCount_nil_of_ne (n : List Char) (hn : n ≠ []) : subCount n [] = 0 := by
  cases n with
  | nil => exact absurd rfl hn
  | cons c cs => rfl

theorem charsHas_false_subCount (n : List Char) :
    ∀ h : List Char, charsHas n h = false → subCount n h = 0 := by
  intro h
  induction h with
  | nil =>
      intro hh
      unfold charsHas at hh
      unfold subCount
      rw [hh]
      rfl
  | cons c rest ih =>
      intro hh
      rw [charsHas_cons] at hh
      rw [Bool.or_eq_false_iff] at hh
      rw [subCount_cons, hh.1, ih hh.2]
      rfl

theorem charsLeads_append_newline (n : List Char) (hnl : '\n' ∉ n) :
    ∀ (a b : List Char), charsLeads n (a ++ '\n' :: b) = charsLeads n a := by
  induction n with
  | nil => intro a b; cases a <;> rfl
  | cons x n ih =>
      intro a b
      cases a with
      | nil =>
          have hx : ¬ x = '\n' := fun h => hnl (h ▸ List.mem_cons_self x n)
          simp [charsLeads, hx]
      | cons c a2 =>
          show (x == c && charsLeads n (a2 ++ '\n' :: b)) = (x == c && charsLeads n a2)
          rw [ih (fun h => hnl (List.mem_cons_of_mem x h)) a2 b]

theorem subCount_append_newline (n : List Char) (hn : n ≠ []) (hnl : '\n' ∉ n) :
    ∀ (a b : List Char), subCount n (a ++ '\n' :: b) = subCount n a + subCount n ('\n' :: b) := by
  intro a
  induction a with
  | nil =>
      intro b
      rw [List.nil_append, subCount_nil_of_ne n hn]
      omega
  | cons c a2 ih =>
      intro b
      have hshape : (c :: a2) ++ '\n' :: b = c :: (a2 ++ '\n' :: b) := rfl
      rw [hshape]
      rw [subCount_cons n c (a2 ++ '\n' :: b)]
      rw [ih b]
      rw [subCount_cons n c a2]
      have hl : charsLeads n (c :: (a2 ++ '\n' :: b)) = charsLeads n (c :: a2) := by
        have h2 := charsLeads_append_newline n hnl (c :: a2) b
        rw [← hshape]
        exact h2
      rw [hl]
      omega

/-! ## Config Persister: gitignore behaviour -/

theorem persist_gitignore_cases (fs : FS) (pp st yc : String) :
    (∀ c, fs.files (gitignorePath pp) = some c →
       ((charsHas gitignoreEntry.data c.data = true ∧
           ((persist_resolved_config fs pp st yc).1).files (gitignorePath pp) = some c) ∨
        (charsHas gitignoreEntry.data c.data = false ∧
           ((persist_resolved_config fs pp st yc).1).files (gitignorePath pp) =
             some (c ++ "\n# Rimac Migration MCP\n" ++ gitignoreEntry ++ "\n")))) ∧
    (fs.files (gitignorePath pp) = none →
       ((persist_resolved_config fs pp st yc).1).files (gitignorePath pp) = none ∨
       ((persist_resolved_config fs pp st yc).1).files (gitignorePath pp) =
         some ("# Rimac Migration MCP\n" ++ gitignoreEntry ++ "\n")) := by
  have hfiles : ((fs.mkdirs (migrationDir pp)).write (resolvedPath pp st) yc).files
      (gitignorePath pp) = fs.files (gitignorePath pp) := by
    rw [FS.files_write_ne _ _ _ _ (gitignore_ne_resolved pp st)]
    rfl
  constructor
  · intro c hc
    unfold persist_resolved_config
    dsimp only
    split
    · rename_i hex
      split
      · rename_i content hcontent
        rw [hfiles, hc] at hcontent
        cases hcontent
        split
        · rename_i hhas
          left
          refine ⟨hhas, ?_⟩
          rw [hfiles, hc]
        · rename_i hhas
          right
          refine ⟨by simpa using hhas, ?_⟩
          rw [FS.files_write_self]
      · rename_i hcontent
        rw [hfiles, hc] at hcontent
        cases hcontent
    · rename_i hex
      exfalso
      apply hex
      unfold FS.existsPath
      rw [hfiles, hc]
      simp
  · intro hc
    unfold persist_resolved_config
    dsimp only
    split
    · split
      · rename_i content hcontent
        rw [hfiles, hc] at hcontent
        cases hcontent
      · left
        rw [hfiles, hc]
    · right
      rw [FS.files_write_self]

theorem persist_gitCount (fs : FS) (pp st yc : String)
    (h : gitCount (fs.files (gitignorePath pp)) ≤ 1) :
    gitCount (((persist_resolved_config fs pp st yc).1).files (gitignorePath pp)) ≤ 1 := by
  cases hc : fs.files (gitignorePath pp) with
  | none =>
      rcases (persist_gitignore_cases fs pp st yc).2 hc with h0 | h1
      · rw [h0]
        decide
      · rw [h1]
        decide
  | some c =>
      rcases (persist_gitignore_cases fs pp st yc).1 c hc with ⟨hhas, heq⟩ | ⟨hhas, heq⟩
      · rw [heq]
        rw [hc] at h
        exact h
      · rw [heq]
        show subCount gitignoreEntry.data
          ((c ++ "\n# Rimac Migration MCP\n" ++ gitignoreEntry ++ "\n").data) ≤ 1
        have hdata : (c ++ "\n# Rimac Migration MCP\n" ++ gitignoreEntry ++ "\n").data =
            c.data ++ '\n' :: ("# Rimac Migration MCP\n" ++ gitignoreEntry ++ "\n").data := by
          simp [String.data_append, List.append_assoc]
        rw [hdata]
        rw [subCount_append_newline gitignoreEntry.data (by decide) (by decide)]
        rw [charsHas_false_subCount gitignoreEntry.data c.data hhas]
        have hone : subCount gitignoreEntry.data
            ('\n' :: ("# Rimac Migration MCP\n" ++ gitignoreEntry ++ "\n").data) = 1 := by
          decide
        rw [hone]

/-- C8: the Config Persister never introduces a duplicate ignore pattern:
a call finding the pattern already in `.gitignore` leaves the file
unchanged; any number of calls starting from a file with at most one
occurrence leave at most one occurrence; and every call preserves the
pre-existing `.gitignore` content as a prefix (append-only). -/
theorem gitignore_idempotent_append_only :
    (∀ (fs : FS) (pp st yc c : String),
       fs.files (gitignorePath pp) = some c →
       charsHas gitignoreEntry.data c.data = true →
       ((persist_resolved_config fs pp st yc).1).files (gitignorePath pp) = some c) ∧
    (∀ (pp : String) (calls : List (String × String)) (fs : FS),
       gitCount (fs.files (gitignorePath pp)) ≤ 1 →
       gitCount ((calls.foldl (persistFS pp) fs).files (gitignorePath pp)) ≤ 1) ∧
    (∀ (pp : String) (calls : List (String × String)) (fs : FS) (c : String),
       fs.files (gitignorePath pp) = some c →
       ∃ t, (calls.foldl (persistFS pp) fs).files (gitignorePath pp) = some (c ++ t)) := by
  refine ⟨?_, ?_, ?_⟩
  · intro fs pp st yc c hc hhas
    rcases (persist_gitignore_cases fs pp st yc).1 c hc with ⟨_, heq⟩ | ⟨hno, _⟩
    · exact heq
    · rw [hhas] at hno
      cases hno
  · intro pp calls
    induction calls with
    | nil => intro fs h; exact h
    | cons call calls ih =>
        intro fs h
        exact ih (persistFS pp fs call) (persist_gitCount fs pp call.1 call.2 h)
  · intro pp calls
    induction calls with
    | nil =>
        intro fs c hc
        refine ⟨"", ?_⟩
        simp only [List.foldl_nil]
        rw [hc, String.append_empty]
    | cons call calls ih =>
        intro fs c hc
        simp only [List.foldl_cons]
        rcases (persist_gitignore_cases fs pp call.1 call.2).1 c hc with ⟨_, heq⟩ | ⟨_, heq⟩
        · exact ih (persistFS pp fs call) c heq
        · obtain ⟨t, ht⟩ := ih (persistFS pp fs call)
            (c ++ "\n# Rimac Migration MCP\n" ++ gitignoreEntry ++ "\n") heq
          refine ⟨"\n# Rimac Migration MCP\n" ++ gitignoreEntry ++ "\n" ++ t, ?_⟩
          rw [ht]
          simp [String.append_assoc]

theorem gitignore_idempotent_append_only_witness :
    ((persist_resolved_config fsGit "proj" "TEST" "x: 1").1).files (gitignorePath "proj") =
      some "node_modules/\n.rimac_migration/\n" ∧
    gitCount (([("TEST", "x: 1"), ("PROD", "y: 2")].foldl (persistFS "proj") fsEmpty).files
      (gitignorePath "proj")) ≤ 1 ∧
    (∃ t, ([("TEST", "x: 1")].foldl (persistFS "proj") fsGit).files (gitignorePath "proj") =
      some ("node_modules/\n.rimac_migration/\n" ++ t)) :=
  ⟨gitignore_idempotent_append_only.1 fsGit "proj" "TEST" "x: 1"
     "node_modules/\n.rimac_migration/\n" rfl (by decide),
   gitignore_idempotent_append_only.2.1 "proj" [("TEST", "x: 1"), ("PROD", "y: 2")] fsEmpty
     (by decide),
   gitignore_idempotent_append_only.2.2 "proj" [("TEST", "x: 1")] fsGit
     "node_modules/\n.rimac_migration/\n" rfl⟩
